import Mathlib

/-!
Shallow embedding of `sensor_allocation_final.py` (HealthRakshak).

The input file is modelled as a list of raw text lines (`List String`).
Python dicts are modelled as insertion-ordered association lists
(`List (String × α)` with unique keys maintained by the update
operations below); Python sets are modelled as `Finset String`;
Python floats are modelled as exact rationals `ℚ`.
A call that can raise `KeyError` is modelled with `Option`.
-/

/-- First-match lookup in an association list (Python `d[k]` / `d.get(k)`). -/
def alistGet {β : Type} : List (String × β) → String → Option β
  | [], _ => none
  | (k, v) :: rest, x => if k = x then some v else alistGet rest x

/-- Python dict assignment `d[k] = v`: overwrite the existing entry in place,
or append a fresh key at the end (dict insertion order). -/
def alistSet {β : Type} : List (String × β) → String → β → List (String × β)
  | [], k, v => [(k, v)]
  | (k', v') :: rest, k, v =>
    if k' = k then (k', v) :: rest else (k', v') :: alistSet rest k v

/-- Python `d.setdefault(k, []).append(v)`: append `v` to the list stored at
`k`, creating an empty list first when `k` is absent. -/
def alistAppend {β : Type} : List (String × List β) → String → β → List (String × List β)
  | [], k, v => [(k, [v])]
  | (k', vs) :: rest, k, v =>
    if k' = k then (k', vs ++ [v]) :: rest else (k', vs) :: alistAppend rest k v

/-- Python `str.strip()`: drop whitespace from both ends. -/
def pyStrip (s : String) : String :=
  String.mk (((s.toList.dropWhile Char.isWhitespace).reverse.dropWhile Char.isWhitespace).reverse)

/-- Python `str.startswith(c)` for a single character. -/
def startsWithCh (c : Char) (s : String) : Bool :=
  match s.toList with
  | [] => false
  | d :: _ => d = c

/-- Python `str.endswith(c)` for a single character. -/
def endsWithCh (c : Char) (s : String) : Bool :=
  match s.toList.getLast? with
  | some d => d = c
  | none => false

/-- Python `str.strip('[]')`: drop `[` and `]` characters from both ends. -/
def stripBrackets (s : String) : String :=
  String.mk (((s.toList.dropWhile (fun c => c = '[' ∨ c = ']')).reverse.dropWhile
    (fun c => c = '[' ∨ c = ']')).reverse)

/-- Python `str.upper()` (ASCII letters, as used for section names). -/
def pyUpper (s : String) : String :=
  String.mk (s.toList.map Char.toUpper)

/-- Helper for `pySplit`: accumulate the current token (reversed). -/
def pySplitAux : List Char → List Char → List String
  | [], acc => if acc = [] then [] else [String.mk acc.reverse]
  | c :: cs, acc =>
    if c.isWhitespace then
      if acc = [] then pySplitAux cs [] else String.mk acc.reverse :: pySplitAux cs []
    else pySplitAux cs (c :: acc)

/-- Python `str.split()`: split on runs of whitespace, no empty tokens. -/
def pySplit (s : String) : List String :=
  pySplitAux s.toList []

/-- Numeric value of a decimal digit character. -/
def digitVal (c : Char) : Nat := c.toNat - 48

/-- Value of a string of decimal digits (empty list gives 0). -/
def digitsToNat (cs : List Char) : Nat :=
  cs.foldl (fun n c => 10 * n + digitVal c) 0

/-- Split a character list at the first `.`, if any. -/
def splitDotAux : List Char → List Char → List Char × Option (List Char)
  | [], acc => (acc.reverse, none)
  | c :: cs, acc =>
    if c = '.' then (acc.reverse, some cs) else splitDotAux cs (c :: acc)

/-- Python `float(s)` on plain decimal literals, modelled exactly over `ℚ`:
optional surrounding whitespace, optional sign, digits with an optional
single decimal point (at least one digit overall).  Exotic accepted forms
(exponents, `inf`/`nan`, underscores) are not modelled; on them and on all
other malformed strings the result is `none` (Python raises `ValueError`,
which every caller in this program catches and treats as a skip). -/
def parseFloat (s : String) : Option ℚ :=
  let t := (pyStrip s).toList
  let sgnT : Int × List Char :=
    match t with
    | '-' :: r => (-1, r)
    | '+' :: r => (1, r)
    | _ => (1, t)
  match splitDotAux sgnT.2 [] with
  | (ip, none) =>
    if ip ≠ [] ∧ ip.all Char.isDigit then some (mkRat (sgnT.1 * (digitsToNat ip : Int)) 1)
    else none
  | (ip, some fp) =>
    if (ip ≠ [] ∨ fp ≠ []) ∧ ip.all Char.isDigit ∧ fp.all Char.isDigit then
      some (mkRat (sgnT.1 * ((digitsToNat ip * 10 ^ fp.length + digitsToNat fp : Nat) : Int))
        (10 ^ fp.length))
    else none

/-- `_is_section_header`: a stripped line delimited by `[` and `]`. -/
def is_section_header (line : String) : Bool :=
  startsWithCh '[' (pyStrip line) && endsWithCh ']' (pyStrip line)

/-- Python `sections.setdefault(current, [])`. -/
def sectSetdefault (secs : List (String × List String)) (k : String) :
    List (String × List String) :=
  match alistGet secs k with
  | some _ => secs
  | none => secs ++ [(k, [])]

/-- One line of `_read_inp_sections`'s loop over the file. -/
def readStep (st : List (String × List String) × String) (raw : String) :
    List (String × List String) × String :=
  let line := pyStrip raw
  if line = "" then st
  else if startsWithCh ';' line then st
  else if is_section_header line then
    let current := pyUpper (stripBrackets line)
    (sectSetdefault st.1 current, current)
  else if st.2 = "" then st
  else (alistAppend st.1 st.2 line, st.2)

/-- `_read_inp_sections`: section name → list of stripped record lines. -/
def read_inp_sections (lines : List String) : List (String × List String) :=
  (lines.foldl readStep ([], "")).1

/-- Python `sections.get('JUNCTIONS', [])`. -/
def junction_records (lines : List String) : List String :=
  (alistGet (read_inp_sections lines) "JUNCTIONS").getD []

/-- Python `sections.get('PIPES', [])`. -/
def pipe_records (lines : List String) : List String :=
  (alistGet (read_inp_sections lines) "PIPES").getD []

/-- One junction record of `get_skip_nodes_from_elevation`'s loop. -/
def skipStep (elevation_threshold : ℚ) (skip : Finset String) (line : String) :
    Finset String :=
  if startsWithCh ';' line then skip
  else
    match pySplit line with
    | n :: ef :: _ =>
      match parseFloat ef with
      | some elevation =>
        if elevation_threshold < elevation then insert n skip else skip
      | none => skip
    | _ => skip

/-- `get_skip_nodes_from_elevation`: nodes whose junction elevation parses
and strictly exceeds the threshold. -/
def get_skip_nodes_from_elevation (lines : List String) (elevation_threshold : ℚ) :
    Finset String :=
  (junction_records lines).foldl (skipStep elevation_threshold) ∅

/-- The graph representation: node → insertion-ordered adjacency list. -/
abbrev NetworkGraph := List (String × List (String × ℚ))

/-- One pipe record of `create_graph_from_inp`'s loop: a record with at
least three fields adds the undirected weight-1 edge, unless an endpoint
is in the skip set. -/
def pipeStep (skip_nodes : Finset String) (g : NetworkGraph) (line : String) :
    NetworkGraph :=
  match pySplit line with
  | _ :: n1 :: n2 :: _ =>
    if n1 ∈ skip_nodes ∨ n2 ∈ skip_nodes then g
    else alistAppend (alistAppend g n1 (n2, 1)) n2 (n1, 1)
  | _ => g

/-- The Python default `elevation_threshold=100.0`. -/
def default_elevation_threshold : ℚ := 100

/-- `create_graph_from_inp` (first component of its returned pair; the
second component is the constant empty dict and is never used). -/
def create_graph_from_inp (lines : List String) (elevation_threshold : ℚ) :
    NetworkGraph :=
  (pipe_records lines).foldl (pipeStep (get_skip_nodes_from_elevation lines elevation_threshold)) []

/-- Python `min(edges, key=lambda x: x[1])` starting from a first element:
keeps the earliest element of minimal weight. -/
def pyMin (l : List (String × ℚ)) (e : String × ℚ) : String × ℚ :=
  l.foldl (fun acc x => if x.2 < acc.2 then x else acc) e

/-- The nearest-neighbor entry contributed by one graph item, if any. -/
def nearestEntry (p : String × List (String × ℚ)) : Option (String × String) :=
  match p.2 with
  | [] => none
  | e :: es => some (p.1, (pyMin es e).1)

/-- One item of `find_nearest_neighbors`' loop: skip empty adjacency,
otherwise record the first minimum-weight neighbor. -/
def nearestStep (nearest : List (String × String)) (p : String × List (String × ℚ)) :
    List (String × String) :=
  match p.2 with
  | [] => nearest
  | e :: es => alistSet nearest p.1 (pyMin es e).1

/-- `find_nearest_neighbors`: node → first minimum-weight neighbor, for
nodes with a non-empty adjacency list. -/
def find_nearest_neighbors (graph : NetworkGraph) : List (String × String) :=
  graph.foldl nearestStep []

/-- Python `counts[n] = counts.get(n, 0) + 1`. -/
def countsUpdate (counts : List (String × Nat)) (n : String) : List (String × Nat) :=
  alistSet counts n ((alistGet counts n).getD 0 + 1)

/-- One item of the second loop of `identify_initial_sensor_nodes`:
`if count > 1: sensors.add(node)`. -/
def initialStep (sensors : Finset String) (p : String × Nat) : Finset String :=
  if 1 < p.2 then insert p.1 sensors else sensors

/-- `identify_initial_sensor_nodes`: nodes named as nearest neighbor more
than once (the count runs over `nearest.values()`). -/
def identify_initial_sensor_nodes (nearest : List (String × String)) : Finset String :=
  ((nearest.map Prod.snd).foldl countsUpdate []).foldl initialStep ∅

/-- One item of `identify_left_out_nodes`' loop. -/
def leftOutStep (sensors lo : Finset String) (p : String × String) : Finset String :=
  if p.2 ∈ sensors then lo else insert p.1 lo

/-- `identify_left_out_nodes`: nodes whose nearest neighbor is not a sensor. -/
def identify_left_out_nodes (nearest : List (String × String)) (sensors : Finset String) :
    Finset String :=
  nearest.foldl (leftOutStep sensors) ∅

/-- Adjacency list of a node, `[]` when it is not a key (convenience). -/
def adjOf (graph : NetworkGraph) (s : String) : List (String × ℚ) :=
  (alistGet graph s).getD []

/-- The inner loop of `remove_redundant_sensors`: `s` is redundant when
every neighbor in `graph[s]` is itself a sensor (vacuously true for an
empty adjacency list). -/
def is_redundant (graph : NetworkGraph) (sensors : Finset String) (s : String) : Bool :=
  (adjOf graph s).all (fun p => decide (p.1 ∈ sensors))

/-- `remove_redundant_sensors`: drop every sensor all of whose graph
neighbors are sensors, the test taken against the set as it stood before
the pass.  `graph[s]` raises `KeyError` when a sensor is not a key of the
graph, which aborts the whole call: that outcome is modelled as `none`. -/
def remove_redundant_sensors (graph : NetworkGraph) (sensors : Finset String) :
    Option (Finset String) :=
  if ∀ s ∈ sensors, (alistGet graph s).isSome = true then
    some (sensors \ sensors.filter (fun s => is_redundant graph sensors s = true))
  else none

/-- One item of `map_to_sensors`' loop. -/
def mapStep (nearest : List (String × String)) (sensors : Finset String)
    (mapping : List (String × String)) (p : String × String) : List (String × String) :=
  if p.1 ∈ sensors then mapping
  else alistSet mapping p.1 ((alistGet nearest p.1).getD p.2)

/-- `map_to_sensors`: each non-sensor node of `nearest` is mapped to
`nearest[node]` (for the dict-shaped `nearest`, the entry's own value). -/
def map_to_sensors (nearest : List (String × String)) (sensors : Finset String) :
    List (String × String) :=
  nearest.foldl (mapStep nearest sensors) []

/-- `identify_sensor_nodes`: the selector pipeline, using the default
elevation threshold as in the source (`create_graph_from_inp(file_path)`). -/
def identify_sensor_nodes (lines : List String) : Option (Finset String) :=
  let node_neighbors := create_graph_from_inp lines default_elevation_threshold
  let nearest_neighbors := find_nearest_neighbors node_neighbors
  let initial_sensors := identify_initial_sensor_nodes nearest_neighbors
  let left_out_nodes := identify_left_out_nodes nearest_neighbors initial_sensors
  remove_redundant_sensors node_neighbors (initial_sensors ∪ left_out_nodes)

/-- The sensor set as it stands just before redundancy removal
(`initial_sensors.union(left_out_nodes)` in `identify_sensor_nodes`). -/
def pre_removal_sensors (lines : List String) : Finset String :=
  identify_initial_sensor_nodes
      (find_nearest_neighbors (create_graph_from_inp lines default_elevation_threshold)) ∪
    identify_left_out_nodes
      (find_nearest_neighbors (create_graph_from_inp lines default_elevation_threshold))
      (identify_initial_sensor_nodes
        (find_nearest_neighbors (create_graph_from_inp lines default_elevation_threshold)))

/-- The full pipeline of `main` / the `/sensor-allocation` route: run the
selector, rebuild the graph and nearest map, apply redundancy removal a
second time, then build the coverage mapping. -/
def mainPipeline (lines : List String) :
    Option (Finset String × List (String × String)) :=
  match identify_sensor_nodes lines with
  | none => none
  | some sensors0 =>
    match remove_redundant_sensors (create_graph_from_inp lines default_elevation_threshold)
        sensors0 with
    | none => none
    | some sensors =>
      some (sensors,
        map_to_sensors
          (find_nearest_neighbors (create_graph_from_inp lines default_elevation_threshold))
          sensors)

/-- A pipe record that does not list the same node as both endpoints. -/
def no_self_pipe (line : String) : Bool :=
  match pySplit line with
  | _ :: n1 :: n2 :: _ => decide (n1 ≠ n2)
  | _ => true

/-- Whether, on this input, every value of the final coverage mapping is a
member of the final sensor set (vacuously true if the pipeline errors). -/
def coverage_values_in_sensors (lines : List String) : Bool :=
  match mainPipeline lines with
  | some (sensors, mapping) => mapping.all (fun p => decide (p.2 ∈ sensors))
  | none => true

/-! ### Association-list lemmas -/

theorem alistGet_alistSet {β : Type} (l : List (String × β)) (k x : String) (v : β) :
    alistGet (alistSet l k v) x = if k = x then some v else alistGet l x := by
  induction l with
  | nil => by_cases hx : k = x <;> simp [alistSet, alistGet, hx]
  | cons hd tl ih =>
    obtain ⟨k', v'⟩ := hd
    by_cases hk : k' = k
    · subst hk
      by_cases hx : k' = x <;> simp [alistSet, alistGet, hx]
    · by_cases hx : k' = x
      · subst hx
        have hkx : ¬k = k' := fun h => hk h.symm
        simp [alistSet, alistGet, hk, hkx]
      · simp [alistSet, alistGet, hk, hx, ih]

theorem alistGet_alistAppend {β : Type} (l : List (String × List β)) (k x : String) (v : β) :
    alistGet (alistAppend l k v) x =
      if k = x then some ((alistGet l k).getD [] ++ [v]) else alistGet l x := by
  induction l with
  | nil => by_cases hx : k = x <;> simp [alistAppend, alistGet, hx]
  | cons hd tl ih =>
    obtain ⟨k', vs⟩ := hd
    by_cases hk : k' = k
    · subst hk
      by_cases hx : k' = x <;> simp [alistAppend, alistGet, hx]
    · by_cases hx : k' = x
      · subst hx
        have hkx : ¬k = k' := fun h => hk h.symm
        simp [alistAppend, alistGet, hk, hkx]
      · simp [alistAppend, alistGet, hk, hx, ih]

theorem alistGet_mem {β : Type} {l : List (String × β)} {x : String} {v : β}
    (h : alistGet l x = some v) : (x, v) ∈ l := by
  induction l with
  | nil => simp [alistGet] at h
  | cons hd tl ih =>
    obtain ⟨k, w⟩ := hd
    by_cases hk : k = x
    · subst hk
      simp [alistGet] at h
      simp [h]
    · simp [alistGet, hk] at h
      exact List.mem_cons_of_mem _ (ih h)

theorem isSome_alistGet_of_mem {β : Type} {l : List (String × β)} {x : String} {v : β}
    (h : (x, v) ∈ l) : (alistGet l x).isSome = true := by
  induction l with
  | nil => simp at h
  | cons hd tl ih =>
    obtain ⟨k, w⟩ := hd
    rcases List.mem_cons.mp h with h1 | h2
    · obtain ⟨hk, hv⟩ := Prod.mk.injEq x v k w ▸ h1
      subst hk
      simp [alistGet]
    · by_cases hk : k = x
      · simp [alistGet, hk]
      · simp [alistGet, hk]
        exact ih h2

theorem alistGet_of_mem_nodup {β : Type} {l : List (String × β)} {x : String} {v : β}
    (hnd : (l.map Prod.fst).Nodup) (h : (x, v) ∈ l) : alistGet l x = some v := by
  induction l with
  | nil => simp at h
  | cons hd tl ih =>
    obtain ⟨k, w⟩ := hd
    simp only [List.map_cons, List.nodup_cons] at hnd
    rcases List.mem_cons.mp h with h1 | h2
    · obtain ⟨hk, hv⟩ := Prod.mk.injEq x v k w ▸ h1
      subst hk; subst hv
      simp [alistGet]
    · by_cases hk : k = x
      · subst hk
        exact absurd (List.mem_map_of_mem Prod.fst h2) hnd.1
      · simp [alistGet, hk]
        exact ih hnd.2 h2

theorem mem_map_fst_alistSet {β : Type} (l : List (String × β)) (k x : String) (v : β) :
    x ∈ (alistSet l k v).map Prod.fst ↔ x ∈ l.map Prod.fst ∨ x = k := by
  induction l with
  | nil => simp [alistSet]
  | cons hd tl ih =>
    obtain ⟨k', v'⟩ := hd
    by_cases hk : k' = k
    · subst hk
      by_cases hx : x = k' <;> simp [alistSet, hx]
    · simp only [alistSet, hk, if_false, List.map_cons, List.mem_cons, ih]
      tauto

theorem nodup_alistSet {β : Type} (l : List (String × β)) (k : String) (v : β)
    (hnd : (l.map Prod.fst).Nodup) : ((alistSet l k v).map Prod.fst).Nodup := by
  induction l with
  | nil => simp [alistSet]
  | cons hd tl ih =>
    obtain ⟨k', v'⟩ := hd
    simp only [List.map_cons, List.nodup_cons] at hnd
    by_cases hk : k' = k
    · subst hk
      have hset : alistSet ((k', v') :: tl) k' v = (k', v) :: tl := by simp [alistSet]
      rw [hset, List.map_cons, List.nodup_cons]
      exact ⟨hnd.1, hnd.2⟩
    · simp only [alistSet, hk, if_false, List.map_cons, List.nodup_cons]
      refine ⟨?_, ih hnd.2⟩
      intro hmem
      rcases (mem_map_fst_alistSet tl k k' v).mp hmem with h1 | h2
      · exact hnd.1 h1
      · exact hk h2

theorem alistSet_fresh {β : Type} (l : List (String × β)) (k : String) (v : β)
    (h : k ∉ l.map Prod.fst) : alistSet l k v = l ++ [(k, v)] := by
  induction l with
  | nil => simp [alistSet]
  | cons hd tl ih =>
    obtain ⟨k', v'⟩ := hd
    simp only [List.map_cons, List.mem_cons] at h
    push_neg at h
    have hk : ¬k' = k := fun hh => h.1 hh.symm
    simp [alistSet, hk, ih h.2]

theorem mem_map_fst_alistAppend {β : Type} (l : List (String × List β)) (k x : String) (v : β) :
    x ∈ (alistAppend l k v).map Prod.fst ↔ x ∈ l.map Prod.fst ∨ x = k := by
  induction l with
  | nil => simp [alistAppend]
  | cons hd tl ih =>
    obtain ⟨k', vs⟩ := hd
    by_cases hk : k' = k
    · subst hk
      by_cases hx : x = k' <;> simp [alistAppend, hx]
    · simp only [alistAppend, hk, if_false, List.map_cons, List.mem_cons, ih]
      tauto

theorem nodup_alistAppend {β : Type} (l : List (String × List β)) (k : String) (v : β)
    (hnd : (l.map Prod.fst).Nodup) : ((alistAppend l k v).map Prod.fst).Nodup := by
  induction l with
  | nil => simp [alistAppend]
  | cons hd tl ih =>
    obtain ⟨k', vs⟩ := hd
    simp only [List.map_cons, List.nodup_cons] at hnd
    by_cases hk : k' = k
    · subst hk
      have hset : alistAppend ((k', vs) :: tl) k' v = (k', vs ++ [v]) :: tl := by
        simp [alistAppend]
      rw [hset, List.map_cons, List.nodup_cons]
      exact ⟨hnd.1, hnd.2⟩
    · simp only [alistAppend, hk, if_false, List.map_cons, List.nodup_cons]
      refine ⟨?_, ih hnd.2⟩
      intro hmem
      rcases (mem_map_fst_alistAppend tl k k' v).mp hmem with h1 | h2
      · exact hnd.1 h1
      · exact hk h2

theorem adjOf_alistAppend (g : NetworkGraph) (k x : String) (v : String × ℚ) :
    adjOf (alistAppend g k v) x = adjOf g x ++ (if k = x then [v] else []) := by
  by_cases hx : k = x
  · subst hx
    simp [adjOf, alistGet_alistAppend]
  · simp [adjOf, alistGet_alistAppend, hx]

theorem isSome_of_adjOf_ne_nil {g : NetworkGraph} {x : String} (h : adjOf g x ≠ []) :
    (alistGet g x).isSome = true := by
  cases hg : alistGet g x with
  | none => exact absurd (by simp [adjOf, hg]) h
  | some l => simp

/-! ### Minimum-selection and graph-construction lemmas -/

theorem pyMin_mem (l : List (String × ℚ)) (e : String × ℚ) : pyMin l e ∈ e :: l := by
  induction l generalizing e with
  | nil => simp [pyMin]
  | cons x xs ih =>
    have h : pyMin (x :: xs) e = pyMin xs (if x.2 < e.2 then x else e) := rfl
    rw [h]
    have hmem := ih (if x.2 < e.2 then x else e)
    rcases List.mem_cons.mp hmem with h1 | h2
    · rw [h1]
      by_cases hlt : x.2 < e.2 <;> simp [hlt]
    · exact List.mem_cons_of_mem _ (List.mem_cons_of_mem _ h2)

theorem pipeStep_eq (skip : Finset String) (g : NetworkGraph) (line : String) :
    pipeStep skip g line = g ∨
      ∃ p0 n1 n2 rest, pySplit line = p0 :: n1 :: n2 :: rest ∧ n1 ∉ skip ∧ n2 ∉ skip ∧
        pipeStep skip g line = alistAppend (alistAppend g n1 (n2, 1)) n2 (n1, 1) := by
  unfold pipeStep
  cases hsp : pySplit line with
  | nil => left; rfl
  | cons p0 r1 =>
    cases r1 with
    | nil => left; rfl
    | cons n1 r2 =>
      cases r2 with
      | nil => left; rfl
      | cons n2 r3 =>
        by_cases hskip : n1 ∈ skip ∨ n2 ∈ skip
        · left; simp [hskip]
        · push_neg at hskip
          right
          exact ⟨p0, n1, n2, r3, rfl, hskip.1, hskip.2, by simp [hskip.1, hskip.2]⟩

theorem adjOf_edge (g : NetworkGraph) (n1 n2 x : String) :
    adjOf (alistAppend (alistAppend g n1 (n2, 1)) n2 (n1, 1)) x =
      (adjOf g x ++ (if n1 = x then [((n2 : String), (1 : ℚ))] else [])) ++
        (if n2 = x then [((n1 : String), (1 : ℚ))] else []) := by
  rw [adjOf_alistAppend, adjOf_alistAppend]

theorem count_ifsingle (c : Prop) [Decidable c] (z y : String × ℚ) :
    List.count z (if c then [y] else []) = if c ∧ z = y then 1 else 0 := by
  by_cases hc : c
  · by_cases hz : z = y <;> simp [hc, hz, List.count_cons]
  · simp [hc]

theorem foldl_inv {α β : Type} (P : β → Prop) (f : β → α → β) :
    ∀ (l : List α) (b : β), P b → (∀ x ∈ l, ∀ acc, P acc → P (f acc x)) → P (l.foldl f b) := by
  intro l
  induction l with
  | nil =>
    intro b hb _
    simpa using hb
  | cons hd tl ih =>
    intro b hb hstep
    rw [List.foldl_cons]
    exact ih (f b hd) (hstep hd (by simp) b hb)
      (fun x hx acc hacc => hstep x (by simp [hx]) acc hacc)

theorem graph_keys_nodup (lines : List String) (thr : ℚ) :
    ((create_graph_from_inp lines thr).map Prod.fst).Nodup := by
  unfold create_graph_from_inp
  refine foldl_inv (fun (g : NetworkGraph) => (g.map Prod.fst).Nodup) _ _ _ (by simp) ?_
  intro line _ g hg
  rcases pipeStep_eq (get_skip_nodes_from_elevation lines thr) g line with h |
    ⟨p0, n1, n2, rest, hsp, h1, h2, heq⟩
  · rw [h]; exact hg
  · rw [heq]
    exact nodup_alistAppend _ _ _ (nodup_alistAppend _ _ _ hg)

theorem graph_weight_one (lines : List String) (thr : ℚ) :
    ∀ x p, p ∈ adjOf (create_graph_from_inp lines thr) x → p.2 = 1 := by
  unfold create_graph_from_inp
  refine foldl_inv (fun (g : NetworkGraph) => ∀ x p, p ∈ adjOf g x → p.2 = 1) _ _ _ ?_ ?_
  · intro x p hp
    simp [adjOf, alistGet] at hp
  · intro line _ g hg x p hp
    rcases pipeStep_eq (get_skip_nodes_from_elevation lines thr) g line with h |
      ⟨p0, n1, n2, rest, hsp, h1, h2, heq⟩
    · rw [h] at hp; exact hg x p hp
    · rw [heq, adjOf_edge] at hp
      rcases List.mem_append.mp hp with hp1 | hp2
      · rcases List.mem_append.mp hp1 with hp0 | hpa
        · exact hg x p hp0
        · by_cases h1x : n1 = x
          · simp [h1x] at hpa
            rw [hpa]
          · simp [h1x] at hpa
      · by_cases h2x : n2 = x
        · simp [h2x] at hp2
          rw [hp2]
        · simp [h2x] at hp2

theorem graph_count_symm (lines : List String) (thr : ℚ) :
    ∀ a b w, (adjOf (create_graph_from_inp lines thr) a).count (b, w)
      = (adjOf (create_graph_from_inp lines thr) b).count (a, w) := by
  unfold create_graph_from_inp
  refine foldl_inv
    (fun (g : NetworkGraph) => ∀ a b w, (adjOf g a).count (b, w) = (adjOf g b).count (a, w))
    _ _ _ ?_ ?_
  · intro a b w
    simp [adjOf, alistGet]
  · intro line _ g hg a b w
    rcases pipeStep_eq (get_skip_nodes_from_elevation lines thr) g line with h |
      ⟨p0, n1, n2, rest, hsp, h1, h2, heq⟩
    · rw [h]; exact hg a b w
    · rw [heq, adjOf_edge, adjOf_edge]
      simp only [List.count_append, count_ifsingle, Prod.mk.injEq]
      rw [hg a b w]
      have h14 : (n1 = a ∧ b = n2 ∧ w = 1) ↔ (n2 = b ∧ a = n1 ∧ w = 1) := by
        constructor <;> rintro ⟨x1, x2, x3⟩ <;> exact ⟨x2.symm, x1.symm, x3⟩
      have h23 : (n2 = a ∧ b = n1 ∧ w = 1) ↔ (n1 = b ∧ a = n2 ∧ w = 1) := by
        constructor <;> rintro ⟨x1, x2, x3⟩ <;> exact ⟨x2.symm, x1.symm, x3⟩
      simp only [h14, h23]
      ring

theorem graph_mem_symm {lines : List String} {thr : ℚ} {a b : String} {w : ℚ}
    (h : (b, w) ∈ adjOf (create_graph_from_inp lines thr) a) :
    (a, w) ∈ adjOf (create_graph_from_inp lines thr) b := by
  have hc := graph_count_symm lines thr a b w
  have hpos : 0 < (adjOf (create_graph_from_inp lines thr) a).count (b, w) :=
    List.count_pos_iff.mpr h
  rw [hc] at hpos
  exact List.count_pos_iff.mp hpos

theorem graph_skip_excluded (lines : List String) (thr : ℚ) :
    (∀ m ∈ get_skip_nodes_from_elevation lines thr,
      alistGet (create_graph_from_inp lines thr) m = none) ∧
    (∀ x p, p ∈ adjOf (create_graph_from_inp lines thr) x →
      p.1 ∉ get_skip_nodes_from_elevation lines thr) := by
  unfold create_graph_from_inp
  refine foldl_inv
    (fun (g : NetworkGraph) =>
      (∀ m ∈ get_skip_nodes_from_elevation lines thr, alistGet g m = none) ∧
      (∀ x p, p ∈ adjOf g x → p.1 ∉ get_skip_nodes_from_elevation lines thr)) _ _ _
    ⟨fun m _ => rfl, fun x p hp => by simp [adjOf, alistGet] at hp⟩ ?_
  intro line _ g hg
  rcases pipeStep_eq (get_skip_nodes_from_elevation lines thr) g line with h |
    ⟨p0, n1, n2, rest, hsp, h1, h2, heq⟩
  · rw [h]; exact hg
  · rw [heq]
    constructor
    · intro m hm
      have hn2 : ¬n2 = m := fun hh => h2 (hh ▸ hm)
      have hn1 : ¬n1 = m := fun hh => h1 (hh ▸ hm)
      simp [alistGet_alistAppend, hn1, hn2, hg.1 m hm]
    · intro x p hp
      rw [adjOf_edge] at hp
      rcases List.mem_append.mp hp with hp1 | hp2
      · rcases List.mem_append.mp hp1 with hp0 | hpa
        · exact hg.2 x p hp0
        · by_cases h1x : n1 = x
          · simp [h1x] at hpa
            rw [hpa]; exact h2
          · simp [h1x] at hpa
      · by_cases h2x : n2 = x
        · simp [h2x] at hp2
          rw [hp2]; exact h1
        · simp [h2x] at hp2

theorem graph_no_self (lines : List String) (thr : ℚ)
    (hok : ∀ line ∈ pipe_records lines, no_self_pipe line = true) :
    ∀ x p, p ∈ adjOf (create_graph_from_inp lines thr) x → p.1 ≠ x := by
  unfold create_graph_from_inp
  refine foldl_inv (fun (g : NetworkGraph) => ∀ x p, p ∈ adjOf g x → p.1 ≠ x) _ _ _ ?_ ?_
  · intro x p hp
    simp [adjOf, alistGet] at hp
  · intro line hline g hg x p hp
    rcases pipeStep_eq (get_skip_nodes_from_elevation lines thr) g line with h |
      ⟨p0, n1, n2, rest, hsp, h1, h2, heq⟩
    · rw [h] at hp; exact hg x p hp
    · have hne : n1 ≠ n2 := by
        have hl := hok line hline
        rw [no_self_pipe, hsp] at hl
        exact of_decide_eq_true hl
      rw [heq, adjOf_edge] at hp
      rcases List.mem_append.mp hp with hp1 | hp2
      · rcases List.mem_append.mp hp1 with hp0 | hpa
        · exact hg x p hp0
        · by_cases h1x : n1 = x
          · simp [h1x] at hpa
            rw [hpa]
            exact fun hh => hne (h1x.trans hh.symm)
          · simp [h1x] at hpa
      · by_cases h2x : n2 = x
        · simp [h2x] at hp2
          rw [hp2]
          exact fun hh => hne (hh.trans h2x.symm)
        · simp [h2x] at hp2

/-! ### Nearest-neighbor map lemmas -/

theorem nearest_foldl_eq (l : NetworkGraph) :
    ∀ acc : List (String × String),
      (∀ x ∈ l.map Prod.fst, x ∉ acc.map Prod.fst) → (l.map Prod.fst).Nodup →
      l.foldl nearestStep acc = acc ++ l.filterMap nearestEntry := by
  induction l with
  | nil =>
    intro acc _ _
    simp
  | cons hd tl ih =>
    intro acc hdis hnd
    obtain ⟨k, adj⟩ := hd
    simp only [List.map_cons, List.nodup_cons] at hnd
    cases adj with
    | nil =>
      rw [List.foldl_cons]
      have h1 : nearestStep acc (k, []) = acc := rfl
      rw [h1, ih acc (fun x hx => hdis x (by simp [hx])) hnd.2]
      simp [nearestEntry]
    | cons e es =>
      rw [List.foldl_cons]
      have hk : k ∉ acc.map Prod.fst := hdis k (by simp)
      have h1 : nearestStep acc (k, e :: es) = acc ++ [(k, (pyMin es e).1)] := by
        simp [nearestStep, alistSet_fresh acc k _ hk]
      rw [h1]
      have hdis2 : ∀ x ∈ tl.map Prod.fst,
          x ∉ (acc ++ [(k, (pyMin es e).1)]).map Prod.fst := by
        intro x hx
        simp only [List.map_append, List.mem_append, List.map_cons, List.map_nil,
          List.mem_singleton, not_or]
        exact ⟨fun hmem => hdis x (by simp [hx]) hmem, fun hh => hnd.1 (hh ▸ hx)⟩
      rw [ih _ hdis2 hnd.2]
      simp [nearestEntry]

theorem find_nearest_eq (g : NetworkGraph) (hnd : (g.map Prod.fst).Nodup) :
    find_nearest_neighbors g = g.filterMap nearestEntry := by
  have h := nearest_foldl_eq g [] (by simp) hnd
  simpa [find_nearest_neighbors] using h

theorem nearest_keys_sublist (g : NetworkGraph) :
    ((g.filterMap nearestEntry).map Prod.fst).Sublist (g.map Prod.fst) := by
  induction g with
  | nil => simp
  | cons hd tl ih =>
    obtain ⟨k, adj⟩ := hd
    cases adj with
    | nil =>
      have h1 : nearestEntry (k, []) = none := rfl
      simp only [List.filterMap_cons, h1, List.map_cons]
      exact ih.cons k
    | cons e es =>
      have h1 : nearestEntry (k, e :: es) = some (k, (pyMin es e).1) := rfl
      simp only [List.filterMap_cons, h1, List.map_cons]
      exact ih.cons₂ k

theorem nearest_keys_nodup (g : NetworkGraph) (hnd : (g.map Prod.fst).Nodup) :
    ((find_nearest_neighbors g).map Prod.fst).Nodup := by
  rw [find_nearest_eq g hnd]
  exact hnd.sublist (nearest_keys_sublist g)

theorem mem_nearest (g : NetworkGraph) (hnd : (g.map Prod.fst).Nodup) {n t : String}
    (h : (n, t) ∈ find_nearest_neighbors g) :
    ∃ e es, alistGet g n = some (e :: es) ∧ t = (pyMin es e).1 := by
  rw [find_nearest_eq g hnd] at h
  rcases List.mem_filterMap.mp h with ⟨p, hp, hpe⟩
  obtain ⟨k, adj⟩ := p
  cases adj with
  | nil => simp [nearestEntry] at hpe
  | cons e es =>
    have hpe2 : (k, (pyMin es e).1) = (n, t) := Option.some.inj hpe
    obtain ⟨hk, ht⟩ := Prod.mk.injEq .. ▸ hpe2
    subst hk
    exact ⟨e, es, alistGet_of_mem_nodup hnd hp, ht.symm⟩

theorem nearest_target_adj (g : NetworkGraph) (hnd : (g.map Prod.fst).Nodup) {n t : String}
    (h : (n, t) ∈ find_nearest_neighbors g) : ∃ w, (t, w) ∈ adjOf g n := by
  rcases mem_nearest g hnd h with ⟨e, es, hget, ht⟩
  refine ⟨(pyMin es e).2, ?_⟩
  have hmem : pyMin es e ∈ e :: es := pyMin_mem es e
  have hpair : ((t : String), (pyMin es e).2) = pyMin es e := by
    rw [ht]
  rw [adjOf, hget, hpair]
  exact hmem

theorem nearest_key_isSome (g : NetworkGraph) (hnd : (g.map Prod.fst).Nodup) {n t : String}
    (h : (n, t) ∈ find_nearest_neighbors g) : (alistGet g n).isSome = true := by
  rcases mem_nearest g hnd h with ⟨e, es, hget, _⟩
  simp [hget]

/-! ### Counting and selection lemmas -/

theorem getCount_countsUpdate (counts : List (String × Nat)) (v t : String) :
    (alistGet (countsUpdate counts v) t).getD 0 =
      (alistGet counts t).getD 0 + (if v = t then 1 else 0) := by
  unfold countsUpdate
  rw [alistGet_alistSet]
  by_cases hv : v = t <;> simp [hv]

theorem getCount_foldl (vs : List String) :
    ∀ (acc : List (String × Nat)) (t : String),
      (alistGet (vs.foldl countsUpdate acc) t).getD 0 =
        (alistGet acc t).getD 0 + vs.count t := by
  induction vs with
  | nil => intro acc t; simp
  | cons v vs ih =>
    intro acc t
    rw [List.foldl_cons, ih, getCount_countsUpdate, List.count_cons]
    by_cases hv : v = t
    · simp [hv]
      omega
    · have hv2 : ¬t = v := fun hh => hv hh.symm
      simp [hv, hv2]

theorem counts_nodup (vs : List String) :
    ∀ acc : List (String × Nat), (acc.map Prod.fst).Nodup →
      ((vs.foldl countsUpdate acc).map Prod.fst).Nodup := by
  induction vs with
  | nil => intro acc h; simpa using h
  | cons v vs ih =>
    intro acc h
    rw [List.foldl_cons]
    exact ih _ (nodup_alistSet _ _ _ h)

theorem initialStep_eq_pos (s0 : Finset String) (p : String × Nat) (hp : 1 < p.2) :
    initialStep s0 p = insert p.1 s0 := by
  simp [initialStep, hp]

theorem initialStep_eq_neg (s0 : Finset String) (p : String × Nat) (hp : ¬1 < p.2) :
    initialStep s0 p = s0 := by
  simp [initialStep, hp]

theorem leftOutStep_eq_mem (sensors s0 : Finset String) (p : String × String)
    (hp : p.2 ∈ sensors) : leftOutStep sensors s0 p = s0 := by
  simp [leftOutStep, hp]

theorem leftOutStep_eq_not_mem (sensors s0 : Finset String) (p : String × String)
    (hp : p.2 ∉ sensors) : leftOutStep sensors s0 p = insert p.1 s0 := by
  simp [leftOutStep, hp]

theorem mem_initial_foldl (counts : List (String × Nat)) :
    ∀ (s0 : Finset String) (x : String),
      (x ∈ counts.foldl initialStep s0 ↔ x ∈ s0 ∨ ∃ p ∈ counts, p.1 = x ∧ 1 < p.2) := by
  induction counts with
  | nil => intro s0 x; simp
  | cons p ps ih =>
    intro s0 x
    rw [List.foldl_cons]
    by_cases hp : 1 < p.2
    · rw [initialStep_eq_pos _ _ hp, ih]
      simp only [Finset.mem_insert, List.mem_cons]
      constructor
      · rintro ((h | h) | ⟨q, hq, hqx, hq2⟩)
        · exact Or.inr ⟨p, Or.inl rfl, h.symm, hp⟩
        · exact Or.inl h
        · exact Or.inr ⟨q, Or.inr hq, hqx, hq2⟩
      · rintro (h | ⟨q, (rfl | hq), hqx, hq2⟩)
        · exact Or.inl (Or.inr h)
        · exact Or.inl (Or.inl hqx.symm)
        · exact Or.inr ⟨q, hq, hqx, hq2⟩
    · rw [initialStep_eq_neg _ _ hp, ih]
      simp only [List.mem_cons]
      constructor
      · rintro (h | ⟨q, hq, hqx, hq2⟩)
        · exact Or.inl h
        · exact Or.inr ⟨q, Or.inr hq, hqx, hq2⟩
      · rintro (h | ⟨q, (rfl | hq), hqx, hq2⟩)
        · exact Or.inl h
        · exact absurd hq2 hp
        · exact Or.inr ⟨q, hq, hqx, hq2⟩

theorem mem_identify_initial (nearest : List (String × String)) (t : String) :
    t ∈ identify_initial_sensor_nodes nearest ↔
      1 < (nearest.map Prod.snd).count t := by
  unfold identify_initial_sensor_nodes
  rw [mem_initial_foldl]
  simp only [Finset.not_mem_empty, false_or]
  constructor
  · rintro ⟨⟨q1, q2⟩, hp, hpt, hp2⟩
    have hq : q1 = t := hpt
    subst hq
    have hnd : (((nearest.map Prod.snd).foldl countsUpdate []).map Prod.fst).Nodup :=
      counts_nodup _ [] (by simp)
    have hget := alistGet_of_mem_nodup hnd hp
    have hcount := getCount_foldl (nearest.map Prod.snd) [] q1
    rw [hget] at hcount
    simp [alistGet] at hcount
    rw [← hcount]
    exact hp2
  · intro hc
    have hcount := getCount_foldl (nearest.map Prod.snd) [] t
    simp only [alistGet, Option.getD_none, Nat.zero_add] at hcount
    cases hget : alistGet ((nearest.map Prod.snd).foldl countsUpdate []) t with
    | none =>
      rw [hget] at hcount
      simp at hcount
      omega
    | some c =>
      rw [hget] at hcount
      simp at hcount
      exact ⟨(t, c), alistGet_mem hget, rfl, by omega⟩

theorem mem_left_out_foldl (sensors : Finset String) (l : List (String × String)) :
    ∀ (s0 : Finset String) (x : String),
      (x ∈ l.foldl (leftOutStep sensors) s0 ↔
        x ∈ s0 ∨ ∃ p ∈ l, p.1 = x ∧ p.2 ∉ sensors) := by
  induction l with
  | nil => intro s0 x; simp
  | cons p ps ih =>
    intro s0 x
    rw [List.foldl_cons]
    by_cases hp : p.2 ∈ sensors
    · rw [leftOutStep_eq_mem _ _ _ hp, ih]
      simp only [List.mem_cons]
      constructor
      · rintro (h | ⟨q, hq, hqx, hq2⟩)
        · exact Or.inl h
        · exact Or.inr ⟨q, Or.inr hq, hqx, hq2⟩
      · rintro (h | ⟨q, (rfl | hq), hqx, hq2⟩)
        · exact Or.inl h
        · exact absurd hp hq2
        · exact Or.inr ⟨q, hq, hqx, hq2⟩
    · rw [leftOutStep_eq_not_mem _ _ _ hp, ih]
      simp only [Finset.mem_insert, List.mem_cons]
      constructor
      · rintro ((h | h) | ⟨q, hq, hqx, hq2⟩)
        · exact Or.inr ⟨p, Or.inl rfl, h.symm, hp⟩
        · exact Or.inl h
        · exact Or.inr ⟨q, Or.inr hq, hqx, hq2⟩
      · rintro (h | ⟨q, (rfl | hq), hqx, hq2⟩)
        · exact Or.inl (Or.inr h)
        · exact Or.inl (Or.inl hqx.symm)
        · exact Or.inr ⟨q, hq, hqx, hq2⟩

theorem mem_identify_left_out (nearest : List (String × String)) (sensors : Finset String)
    (x : String) :
    x ∈ identify_left_out_nodes nearest sensors ↔
      ∃ p ∈ nearest, p.1 = x ∧ p.2 ∉ sensors := by
  unfold identify_left_out_nodes
  rw [mem_left_out_foldl]
  simp

/-! ### Redundancy-removal lemmas -/

theorem remove_redundant_eq_some {graph : NetworkGraph} {sensors : Finset String}
    (h : ∀ s ∈ sensors, (alistGet graph s).isSome = true) :
    remove_redundant_sensors graph sensors =
      some (sensors \ sensors.filter (fun s => is_redundant graph sensors s = true)) := by
  unfold remove_redundant_sensors
  rw [if_pos h]

theorem remove_redundant_none_iff (graph : NetworkGraph) (sensors : Finset String) :
    remove_redundant_sensors graph sensors = none ↔
      ∃ s ∈ sensors, alistGet graph s = none := by
  unfold remove_redundant_sensors
  by_cases h : ∀ s ∈ sensors, (alistGet graph s).isSome = true
  · rw [if_pos h]
    constructor
    · intro hc
      exact absurd hc (by simp)
    · rintro ⟨s, hs, hnone⟩
      have hsome := h s hs
      rw [hnone] at hsome
      simp at hsome
  · rw [if_neg h]
    push_neg at h
    obtain ⟨s, hs, hsome⟩ := h
    constructor
    · intro _
      refine ⟨s, hs, ?_⟩
      cases hg : alistGet graph s with
      | none => rfl
      | some l => rw [hg] at hsome; simp at hsome
    · intro _
      rfl

theorem mem_remove_redundant {graph : NetworkGraph} {sensors R : Finset String}
    (h : remove_redundant_sensors graph sensors = some R) :
    ∀ x, (x ∈ R ↔ x ∈ sensors ∧ ¬is_redundant graph sensors x = true) := by
  unfold remove_redundant_sensors at h
  by_cases hall : ∀ s ∈ sensors, (alistGet graph s).isSome = true
  · rw [if_pos hall] at h
    have hR := Option.some.inj h
    intro x
    rw [← hR]
    simp only [Finset.mem_sdiff, Finset.mem_filter]
    tauto
  · rw [if_neg hall] at h
    exact absurd h (by simp)

theorem remove_redundant_subset {graph : NetworkGraph} {sensors R : Finset String}
    (h : remove_redundant_sensors graph sensors = some R) : R ⊆ sensors :=
  fun x hx => ((mem_remove_redundant h x).mp hx).1

theorem remove_redundant_isSome_of_keys {graph : NetworkGraph} {sensors : Finset String}
    (h : ∀ s ∈ sensors, (alistGet graph s).isSome = true) :
    ∃ R, remove_redundant_sensors graph sensors = some R :=
  ⟨_, remove_redundant_eq_some h⟩

theorem is_redundant_true_iff (graph : NetworkGraph) (sensors : Finset String) (s : String) :
    is_redundant graph sensors s = true ↔ ∀ p ∈ adjOf graph s, p.1 ∈ sensors := by
  simp [is_redundant, List.all_eq_true]

theorem is_redundant_false_iff (graph : NetworkGraph) (sensors : Finset String) (s : String) :
    is_redundant graph sensors s = false ↔ ∃ p ∈ adjOf graph s, p.1 ∉ sensors := by
  simp [is_redundant, List.all_eq_false]

/-! ### Coverage-mapping lemmas -/

theorem map_foldl_eq (nearest : List (String × String)) (sensors : Finset String) :
    ∀ (l : List (String × String)) (acc : List (String × String)),
      (∀ p ∈ l, alistGet nearest p.1 = some p.2) → (l.map Prod.fst).Nodup →
      (∀ x ∈ l.map Prod.fst, x ∉ acc.map Prod.fst) →
      l.foldl (mapStep nearest sensors) acc =
        acc ++ l.filter (fun p => decide (p.1 ∉ sensors)) := by
  intro l
  induction l with
  | nil =>
    intro acc _ _ _
    simp
  | cons p ps ih =>
    intro acc hget hnd hdis
    obtain ⟨k, v⟩ := p
    simp only [List.map_cons, List.nodup_cons] at hnd
    rw [List.foldl_cons]
    by_cases hk : k ∈ sensors
    · have h1 : mapStep nearest sensors acc (k, v) = acc := by simp [mapStep, hk]
      rw [h1, ih acc (fun q hq => hget q (by simp [hq])) hnd.2
        (fun x hx => hdis x (by simp [hx]))]
      have h2 : decide ((k : String) ∉ sensors) = false := by simp [hk]
      simp [List.filter_cons, h2, hk]
    · have hkacc : k ∉ acc.map Prod.fst := hdis k (by simp)
      have hgetk : alistGet nearest k = some v := hget (k, v) (by simp)
      have h1 : mapStep nearest sensors acc (k, v) = acc ++ [(k, v)] := by
        simp [mapStep, hk, hgetk, alistSet_fresh acc k _ hkacc]
      rw [h1]
      have hdis2 : ∀ x ∈ ps.map Prod.fst, x ∉ (acc ++ [(k, v)]).map Prod.fst := by
        intro x hx
        simp only [List.map_append, List.mem_append, List.map_cons, List.map_nil,
          List.mem_singleton, not_or]
        exact ⟨fun hmem => hdis x (by simp [hx]) hmem, fun hh => hnd.1 (hh ▸ hx)⟩
      rw [ih _ (fun q hq => hget q (by simp [hq])) hnd.2 hdis2]
      have h2 : decide ((k : String) ∉ sensors) = true := by simp [hk]
      simp [List.filter_cons, h2, hk]

theorem map_to_sensors_eq (nearest : List (String × String)) (sensors : Finset String)
    (hnd : (nearest.map Prod.fst).Nodup) :
    map_to_sensors nearest sensors = nearest.filter (fun p => decide (p.1 ∉ sensors)) := by
  have h := map_foldl_eq nearest sensors nearest []
    (fun p hp => alistGet_of_mem_nodup hnd hp) hnd (by simp)
  simpa [map_to_sensors] using h

/-! ### Pipeline lemmas -/

theorem identify_eq (lines : List String) :
    identify_sensor_nodes lines =
      remove_redundant_sensors (create_graph_from_inp lines default_elevation_threshold)
        (pre_removal_sensors lines) := rfl

theorem pre_removal_keys (lines : List String) :
    ∀ s ∈ pre_removal_sensors lines,
      (alistGet (create_graph_from_inp lines default_elevation_threshold) s).isSome = true := by
  intro s hs
  have hndk := graph_keys_nodup lines default_elevation_threshold
  rcases Finset.mem_union.mp hs with h1 | h2
  · rw [mem_identify_initial] at h1
    have hmem : s ∈ (find_nearest_neighbors
        (create_graph_from_inp lines default_elevation_threshold)).map Prod.snd :=
      List.count_pos_iff.mp (by omega)
    rcases List.mem_map.mp hmem with ⟨p, hp, hps⟩
    obtain ⟨n, t⟩ := p
    have ht : t = s := hps
    subst ht
    obtain ⟨w, hw⟩ := nearest_target_adj _ hndk hp
    have hsym := graph_mem_symm hw
    apply isSome_of_adjOf_ne_nil
    intro hnil
    rw [hnil] at hsym
    simp at hsym
  · rw [mem_identify_left_out] at h2
    rcases h2 with ⟨p, hp, hps, _⟩
    obtain ⟨n, t⟩ := p
    have hn : n = s := hps
    subst hn
    exact nearest_key_isSome _ hndk hp

theorem identify_sensor_nodes_some (lines : List String) :
    ∃ S2, identify_sensor_nodes lines = some S2 ∧ S2 ⊆ pre_removal_sensors lines := by
  obtain ⟨R, hR⟩ := remove_redundant_isSome_of_keys (pre_removal_keys lines)
  exact ⟨R, by rw [identify_eq]; exact hR, remove_redundant_subset hR⟩

theorem mainPipeline_run (lines : List String) :
    ∃ S2 final, identify_sensor_nodes lines = some S2 ∧ S2 ⊆ pre_removal_sensors lines ∧
      remove_redundant_sensors (create_graph_from_inp lines default_elevation_threshold) S2
        = some final ∧
      mainPipeline lines = some (final,
        map_to_sensors
          (find_nearest_neighbors (create_graph_from_inp lines default_elevation_threshold))
          final) := by
  obtain ⟨S2, hS2, hsub⟩ := identify_sensor_nodes_some lines
  have hkeys2 : ∀ s ∈ S2,
      (alistGet (create_graph_from_inp lines default_elevation_threshold) s).isSome = true :=
    fun s hsmem => pre_removal_keys lines s (hsub hsmem)
  obtain ⟨final, hfinal⟩ := remove_redundant_isSome_of_keys hkeys2
  refine ⟨S2, final, hS2, hsub, hfinal, ?_⟩
  unfold mainPipeline
  simp [hS2, hfinal]

/-! ### Section-reading and skip-set lemmas -/

theorem alistGet_append_of_some {β : Type} {l : List (String × β)} {x : String} {w : β}
    (h : alistGet l x = some w) (l2 : List (String × β)) : alistGet (l ++ l2) x = some w := by
  induction l with
  | nil => simp [alistGet] at h
  | cons hd tl ih =>
    obtain ⟨k, v⟩ := hd
    by_cases hk : k = x
    · simp [alistGet, hk] at h
      simp [alistGet, hk, h]
    · simp [alistGet, hk] at h ⊢
      exact ih h

theorem alistGet_append_of_none {β : Type} {l : List (String × β)} {x : String}
    (h : alistGet l x = none) (l2 : List (String × β)) : alistGet (l ++ l2) x = alistGet l2 x := by
  induction l with
  | nil => simp
  | cons hd tl ih =>
    obtain ⟨k, v⟩ := hd
    by_cases hk : k = x
    · simp [alistGet, hk] at h
    · simp [alistGet, hk] at h ⊢
      exact ih h

theorem readStep_empty {st : List (String × List String) × String} {raw : String}
    (h : pyStrip raw = "") : readStep st raw = st := by
  simp [readStep, h]

theorem readStep_semi {st : List (String × List String) × String} {raw : String}
    (h1 : pyStrip raw ≠ "") (h2 : startsWithCh ';' (pyStrip raw) = true) :
    readStep st raw = st := by
  simp [readStep, h1, h2]

theorem readStep_header {st : List (String × List String) × String} {raw : String}
    (h1 : pyStrip raw ≠ "") (h2 : startsWithCh ';' (pyStrip raw) = false)
    (h3 : is_section_header (pyStrip raw) = true) :
    readStep st raw = (sectSetdefault st.1 (pyUpper (stripBrackets (pyStrip raw))),
      pyUpper (stripBrackets (pyStrip raw))) := by
  simp [readStep, h1, h2, h3]

theorem readStep_nocur {st : List (String × List String) × String} {raw : String}
    (h1 : pyStrip raw ≠ "") (h2 : startsWithCh ';' (pyStrip raw) = false)
    (h3 : is_section_header (pyStrip raw) = false) (h4 : st.2 = "") :
    readStep st raw = st := by
  simp [readStep, h1, h2, h3, h4]

theorem readStep_content {st : List (String × List String) × String} {raw : String}
    (h1 : pyStrip raw ≠ "") (h2 : startsWithCh ';' (pyStrip raw) = false)
    (h3 : is_section_header (pyStrip raw) = false) (h4 : st.2 ≠ "") :
    readStep st raw = (alistAppend st.1 st.2 (pyStrip raw), st.2) := by
  simp [readStep, h1, h2, h3, h4]

theorem sections_no_semicolon (lines : List String) :
    ∀ sec line, line ∈ (alistGet (read_inp_sections lines) sec).getD [] →
      startsWithCh ';' line = false := by
  unfold read_inp_sections
  refine foldl_inv
    (fun (st : List (String × List String) × String) =>
      ∀ sec line, line ∈ (alistGet st.1 sec).getD [] → startsWithCh ';' line = false)
    readStep lines ([], "") ?_ ?_
  · intro sec line hline
    simp [alistGet] at hline
  · intro raw _ st hst
    by_cases h1 : pyStrip raw = ""
    · rw [readStep_empty h1]; exact hst
    cases h2 : startsWithCh ';' (pyStrip raw) with
    | true => rw [readStep_semi h1 h2]; exact hst
    | false =>
      cases h3 : is_section_header (pyStrip raw) with
      | true =>
        rw [readStep_header h1 h2 h3]
        intro sec line hline
        unfold sectSetdefault at hline
        cases hget : alistGet st.1 (pyUpper (stripBrackets (pyStrip raw))) with
        | some l =>
          rw [hget] at hline
          exact hst sec line hline
        | none =>
          rw [hget] at hline
          cases hsec : alistGet st.1 sec with
          | some l =>
            rw [alistGet_append_of_some hsec] at hline
            exact hst sec line (by rw [hsec]; exact hline)
          | none =>
            rw [alistGet_append_of_none hsec] at hline
            by_cases hc : pyUpper (stripBrackets (pyStrip raw)) = sec <;>
              simp [alistGet, hc] at hline
      | false =>
        by_cases h4 : st.2 = ""
        · rw [readStep_nocur h1 h2 h3 h4]; exact hst
        · rw [readStep_content h1 h2 h3 h4]
          intro sec line hline
          rw [alistGet_alistAppend] at hline
          by_cases hcs : st.2 = sec
          · rw [if_pos hcs] at hline
            simp only [Option.getD_some, List.mem_append, List.mem_singleton] at hline
            rcases hline with hl | hl
            · exact hst sec line (by rw [← hcs]; exact hl)
            · rw [hl]; exact h2
          · rw [if_neg hcs] at hline
            exact hst sec line hline

theorem skipStep_mono (thr : ℚ) (s : Finset String) (line : String) :
    s ⊆ skipStep thr s line := by
  unfold skipStep
  repeat' split
  all_goals first
  | exact Finset.Subset.refl _
  | exact Finset.subset_insert _ _

theorem skipStep_inserts (thr : ℚ) (s : Finset String) (line n ef : String)
    (rest : List String) (e : ℚ) (h2 : startsWithCh ';' line = false)
    (hsp : pySplit line = n :: ef :: rest) (hpf : parseFloat ef = some e) (hgt : thr < e) :
    n ∈ skipStep thr s line := by
  simp [skipStep, h2, hsp, hpf, hgt]

theorem foldl_skip_preserve (thr : ℚ) (l : List String) :
    ∀ (s : Finset String) (n : String), n ∈ s → n ∈ l.foldl (skipStep thr) s := by
  induction l with
  | nil =>
    intro s n h
    simpa using h
  | cons x xs ih =>
    intro s n h
    rw [List.foldl_cons]
    exact ih _ n (skipStep_mono thr s x h)

theorem mem_skip_of_record (lines : List String) (thr : ℚ) (line n ef : String)
    (rest : List String) (e : ℚ) (hline : line ∈ junction_records lines)
    (hsp : pySplit line = n :: ef :: rest) (hpf : parseFloat ef = some e) (hgt : thr < e) :
    n ∈ get_skip_nodes_from_elevation lines thr := by
  have h2 : startsWithCh ';' line = false := sections_no_semicolon lines "JUNCTIONS" line hline
  unfold get_skip_nodes_from_elevation junction_records
  obtain ⟨l1, l2, hdecomp⟩ := List.append_of_mem hline
  unfold junction_records at hdecomp
  rw [hdecomp, List.foldl_append, List.foldl_cons]
  exact foldl_skip_preserve thr l2 _ n
    (skipStep_inserts thr _ line n ef rest e h2 hsp hpf hgt)

theorem pipeStep_skip_noop (skip : Finset String) (g : NetworkGraph) (lp p0 m1 m2 : String)
    (rest : List String) (hsp : pySplit lp = p0 :: m1 :: m2 :: rest)
    (h : m1 ∈ skip ∨ m2 ∈ skip) : pipeStep skip g lp = g := by
  unfold pipeStep
  rw [hsp]
  simp [h]

/-! ### Claim theorems -/

/-- C1 (counterexample): on the input with a single pipe `P1 A B`, the full
pipeline prunes both sensors (each is fully surrounded by sensors in the
single pre-pass check), returning the empty sensor set, while the coverage
mapping still maps `A` to `B` and `B` to `A`; so not every value of the
coverage mapping is a member of the final sensor set. -/
theorem C1_coverage_counterexample :
    coverage_values_in_sensors ["[PIPES]", "P1 A B"] = false ∧
    mainPipeline ["[PIPES]", "P1 A B"] = some (∅, [("A", "B"), ("B", "A")]) ∧
    "B" ∉ (∅ : Finset String) := by
  refine ⟨by decide, by decide, by decide⟩

/-- C1 (amended): in the full pipeline, every coverage-mapping value at a key
that was NOT in the sensor set as it stood before redundancy removal is a
member of the final sensor set; keys that are pruned former sensors may map
to non-sensors (as the counterexample shows). -/
theorem C1_coverage_amended (lines : List String) (final : Finset String)
    (mapping : List (String × String)) (n t : String)
    (hrun : mainPipeline lines = some (final, mapping))
    (hmem : (n, t) ∈ mapping)
    (hpre : n ∉ pre_removal_sensors lines) : t ∈ final := by
  obtain ⟨S2, final', hS2, hsub, hfin, hmain⟩ := mainPipeline_run lines
  rw [hmain] at hrun
  have hpair := Option.some.inj hrun
  obtain rfl : final' = final := congrArg Prod.fst hpair
  have hm : map_to_sensors
      (find_nearest_neighbors (create_graph_from_inp lines default_elevation_threshold)) final'
      = mapping := congrArg Prod.snd hpair
  rw [← hm] at hmem
  have hndk := graph_keys_nodup lines default_elevation_threshold
  have hndn := nearest_keys_nodup _ hndk
  rw [map_to_sensors_eq _ _ hndn] at hmem
  obtain ⟨hnear, _⟩ := List.mem_filter.mp hmem
  have htinit : t ∈ identify_initial_sensor_nodes
      (find_nearest_neighbors (create_graph_from_inp lines default_elevation_threshold)) := by
    by_contra hti
    exact hpre (Finset.mem_union_right _
      ((mem_identify_left_out _ _ n).mpr ⟨(n, t), hnear, rfl, hti⟩))
  have htpre : t ∈ pre_removal_sensors lines := Finset.mem_union_left _ htinit
  obtain ⟨w, hw⟩ := nearest_target_adj _ hndk hnear
  have hsym := graph_mem_symm hw
  have hS2' : remove_redundant_sensors (create_graph_from_inp lines default_elevation_threshold)
      (pre_removal_sensors lines) = some S2 := by
    rw [← identify_eq]
    exact hS2
  have htS2 : t ∈ S2 := by
    rw [mem_remove_redundant hS2' t]
    refine ⟨htpre, fun hred => ?_⟩
    exact hpre ((is_redundant_true_iff _ _ t).mp hred (n, w) hsym)
  have hnS2 : n ∉ S2 := fun hh => hpre (hsub hh)
  rw [mem_remove_redundant hfin t]
  refine ⟨htS2, fun hred => ?_⟩
  exact hnS2 ((is_redundant_true_iff _ _ t).mp hred (n, w) hsym)

/-- C1 (witness): on the star graph A-B, B-C, B-D the amended claim applies
at key A (never a sensor) and its value B is in the final sensor set. -/
theorem C1_coverage_amended_witness :
    mainPipeline ["[PIPES]", "P1 A B", "P2 B C", "P3 B D"] =
      some ({"B"}, [("A", "B"), ("C", "B"), ("D", "B")]) ∧
    "B" ∈ ({"B"} : Finset String) :=
  ⟨by decide, C1_coverage_amended ["[PIPES]", "P1 A B", "P2 B C", "P3 B D"] {"B"}
    [("A", "B"), ("C", "B"), ("D", "B")] "A" "B" (by decide) (by decide) (by decide)⟩

/-- C2 (counterexample): the pipe record `P1 N1 N1` (equal endpoints) puts
`N1` into its own adjacency list, and the nearest map then maps `N1` to
itself — refuting the claim that the loader's adjacency never contains
self-loops and the nearest map never maps a node to itself. -/
theorem C2_no_self_counterexample :
    ("N1", (1 : ℚ)) ∈ adjOf (create_graph_from_inp ["[PIPES]", "P1 N1 N1"]
      default_elevation_threshold) "N1" ∧
    alistGet (find_nearest_neighbors (create_graph_from_inp ["[PIPES]", "P1 N1 N1"]
      default_elevation_threshold)) "N1" = some "N1" := by
  refine ⟨by decide, by decide⟩

/-- C2 (amended): provided no pipe record lists the same node as both of its
two endpoint fields, the loader's graph contains no self-loop entry and the
nearest map never maps a node to itself, for every input and threshold. -/
theorem C2_no_self_amended (lines : List String) (thr : ℚ)
    (h : ∀ line ∈ pipe_records lines, no_self_pipe line = true) :
    (∀ x p, p ∈ adjOf (create_graph_from_inp lines thr) x → p.1 ≠ x) ∧
    (∀ q ∈ find_nearest_neighbors (create_graph_from_inp lines thr), q.1 ≠ q.2) := by
  refine ⟨graph_no_self lines thr h, ?_⟩
  intro q hq
  obtain ⟨n, t⟩ := q
  obtain ⟨w, hw⟩ := nearest_target_adj _ (graph_keys_nodup lines thr) hq
  intro hnt
  exact graph_no_self lines thr h n (t, w) hw hnt.symm

/-- C2 (witness): the hypothesis and conclusion hold on the pipe `P1 A B`. -/
theorem C2_no_self_amended_witness :
    (∀ line ∈ pipe_records ["[PIPES]", "P1 A B"], no_self_pipe line = true) ∧
    (∀ x p, p ∈ adjOf (create_graph_from_inp ["[PIPES]", "P1 A B"] 100) x → p.1 ≠ x) :=
  ⟨by decide, (C2_no_self_amended ["[PIPES]", "P1 A B"] 100 (by decide)).1⟩

/-- C3 (counterexample): with pipes `P1 N1 N1` and `P2 N2 N1` the nearest map
is `{N1: N1, N2: N1}`; the code counts the self-entry and selects `N1` as an
initial sensor even though only ONE distinct node other than `N1` names it —
refuting the claim's "more than one distinct node other than t" reading. -/
theorem C3_initial_counterexample :
    find_nearest_neighbors (create_graph_from_inp ["[PIPES]", "P1 N1 N1", "P2 N2 N1"]
        default_elevation_threshold) = [("N1", "N1"), ("N2", "N1")] ∧
    "N1" ∈ identify_initial_sensor_nodes [("N1", "N1"), ("N2", "N1")] ∧
    ¬1 < (([("N1", "N1"), ("N2", "N1")] : List (String × String)).filter
      (fun p => decide (p.2 = "N1") && decide (p.1 ≠ "N1"))).length := by
  refine ⟨by decide, by decide, by decide⟩

/-- C3 (amended): for a nearest map with distinct keys,
`identify_initial_sensor_nodes` returns exactly the nodes named as the value
of strictly more than one distinct entry — counting a node's own self-entry
when present (the "other than t" restriction of the original claim is
dropped, as the counterexample forces). -/
theorem C3_initial_amended (nearest : List (String × String))
    (_hnd : (nearest.map Prod.fst).Nodup) (t : String) :
    t ∈ identify_initial_sensor_nodes nearest ↔
      1 < (nearest.filter (fun p => decide (p.2 = t))).length := by
  rw [mem_identify_initial]
  have hcf : ∀ l : List (String × String),
      (l.map Prod.snd).count t = (l.filter (fun p => decide (p.2 = t))).length := by
    intro l
    induction l with
    | nil => simp
    | cons p ps ih =>
      by_cases hp : p.2 = t <;>
        simp [List.count_cons, List.filter_cons, hp, ih]
  rw [hcf]

/-- C3 (witness): on the nearest map `{A: B, C: B}` (distinct keys), `B` is
an initial sensor iff more than one entry names it. -/
theorem C3_initial_amended_witness :
    ((([("A", "B"), ("C", "B")] : List (String × String)).map Prod.fst).Nodup) ∧
    ("B" ∈ identify_initial_sensor_nodes [("A", "B"), ("C", "B")] ↔
      1 < (([("A", "B"), ("C", "B")] : List (String × String)).filter
        (fun p => decide (p.2 = "B"))).length) :=
  ⟨by decide, C3_initial_amended [("A", "B"), ("C", "B")] (by decide) "B"⟩

/-- C4 (confirmed): redundancy removal is idempotent: when every member of
the sensor set is a key of the graph, applying `remove_redundant_sensors`
to its own result yields the same set as applying it once. -/
theorem C4_remove_idempotent (graph : NetworkGraph) (S : Finset String)
    (h : ∀ s ∈ S, (alistGet graph s).isSome = true) :
    (remove_redundant_sensors graph S).bind (remove_redundant_sensors graph) =
      remove_redundant_sensors graph S := by
  obtain ⟨R, hR⟩ := remove_redundant_isSome_of_keys h
  rw [hR]
  show remove_redundant_sensors graph R = some R
  have hsub := remove_redundant_subset hR
  have hkeysR : ∀ s ∈ R, (alistGet graph s).isSome = true := fun s hs => h s (hsub hs)
  obtain ⟨R2, hR2⟩ := remove_redundant_isSome_of_keys hkeysR
  rw [hR2]
  congr 1
  apply Finset.Subset.antisymm (remove_redundant_subset hR2)
  intro x hx
  rw [mem_remove_redundant hR2 x]
  refine ⟨hx, fun hred => ?_⟩
  have hx' := (mem_remove_redundant hR x).mp hx
  have hfalse : is_redundant graph S x = false := by
    cases hb : is_redundant graph S x
    · rfl
    · exact absurd hb hx'.2
  obtain ⟨p, hp, hpS⟩ := (is_redundant_false_iff graph S x).mp hfalse
  exact hpS (hsub ((is_redundant_true_iff graph R x).mp hred p hp))

/-- C4 (witness): on the two-node graph A-B with sensors {A, B} the first
pass empties the set and the second pass keeps it empty. -/
theorem C4_remove_idempotent_witness :
    (∀ s ∈ ({"A", "B"} : Finset String),
      (alistGet [("A", [("B", (1 : ℚ))]), ("B", [("A", (1 : ℚ))])] s).isSome = true) ∧
    (remove_redundant_sensors [("A", [("B", (1 : ℚ))]), ("B", [("A", (1 : ℚ))])]
        {"A", "B"}).bind
        (remove_redundant_sensors [("A", [("B", (1 : ℚ))]), ("B", [("A", (1 : ℚ))])]) =
      remove_redundant_sensors [("A", [("B", (1 : ℚ))]), ("B", [("A", (1 : ℚ))])]
        {"A", "B"} :=
  ⟨by decide, C4_remove_idempotent _ _ (by decide)⟩

/-- C5 (confirmed): post-condition of `remove_redundant_sensors`: the result
is the single-pass pruning of the input set, judged against the set as it
stood before the pass; every surviving sensor with a non-empty adjacency
list has a graph-neighbor outside the returned set; and every input sensor
with an empty adjacency list is removed (vacuously redundant). -/
theorem C5_remove_postcondition (graph : NetworkGraph) (S R : Finset String)
    (h : remove_redundant_sensors graph S = some R) :
    R = S \ S.filter (fun s => is_redundant graph S s = true) ∧
    (∀ s ∈ R, adjOf graph s ≠ [] → ∃ p ∈ adjOf graph s, p.1 ∉ R) ∧
    (∀ s ∈ S, adjOf graph s = [] → s ∉ R) := by
  refine ⟨?_, ?_, ?_⟩
  · unfold remove_redundant_sensors at h
    by_cases hall : ∀ s ∈ S, (alistGet graph s).isSome = true
    · rw [if_pos hall] at h
      exact (Option.some.inj h).symm
    · rw [if_neg hall] at h
      exact absurd h (by simp)
  · intro s hs _
    have hs' := (mem_remove_redundant h s).mp hs
    have hfalse : is_redundant graph S s = false := by
      cases hb : is_redundant graph S s
      · rfl
      · exact absurd hb hs'.2
    obtain ⟨p, hp, hpS⟩ := (is_redundant_false_iff graph S s).mp hfalse
    exact ⟨p, hp, fun hpR => hpS (remove_redundant_subset h hpR)⟩
  · intro s _ hempty hsR
    have hs' := (mem_remove_redundant h s).mp hsR
    apply hs'.2
    rw [is_redundant_true_iff]
    intro p hp
    rw [hempty] at hp
    simp at hp

/-- C5 (witness): on the star graph with sensors {B, C}, sensor C (whose only
neighbor B is a sensor) is pruned and survivor B keeps an outside neighbor. -/
theorem C5_remove_postcondition_witness :
    remove_redundant_sensors
      [("A", [("B", (1 : ℚ))]),
       ("B", [("A", (1 : ℚ)), ("C", (1 : ℚ)), ("D", (1 : ℚ))]),
       ("C", [("B", (1 : ℚ))]), ("D", [("B", (1 : ℚ))])] {"B", "C"} = some {"B"} ∧
    (∀ s ∈ ({"B"} : Finset String),
      adjOf [("A", [("B", (1 : ℚ))]),
        ("B", [("A", (1 : ℚ)), ("C", (1 : ℚ)), ("D", (1 : ℚ))]),
        ("C", [("B", (1 : ℚ))]), ("D", [("B", (1 : ℚ))])] s ≠ [] →
      ∃ p ∈ adjOf [("A", [("B", (1 : ℚ))]),
        ("B", [("A", (1 : ℚ)), ("C", (1 : ℚ)), ("D", (1 : ℚ))]),
        ("C", [("B", (1 : ℚ))]), ("D", [("B", (1 : ℚ))])] s, p.1 ∉ ({"B"} : Finset String)) :=
  ⟨by decide,
    (C5_remove_postcondition
      [("A", [("B", (1 : ℚ))]),
       ("B", [("A", (1 : ℚ)), ("C", (1 : ℚ)), ("D", (1 : ℚ))]),
       ("C", [("B", (1 : ℚ))]), ("D", [("B", (1 : ℚ))])] {"B", "C"} {"B"} (by decide)).2.1⟩

/-- C6 (confirmed): the key set of `map_to_sensors` is exactly the set of
nearest-map keys outside the sensor set (in order); every mapping entry is
the node's own nearest-map entry; and every nearest-map key lies in exactly
one of the sensor set or the mapping's key set. -/
theorem C6_coverage_partition (nearest : List (String × String)) (sensors : Finset String)
    (hnd : (nearest.map Prod.fst).Nodup) :
    (map_to_sensors nearest sensors).map Prod.fst =
      (nearest.map Prod.fst).filter (fun x => decide (x ∉ sensors)) ∧
    (∀ p ∈ map_to_sensors nearest sensors, alistGet nearest p.1 = some p.2) ∧
    (∀ x ∈ nearest.map Prod.fst,
      (x ∈ sensors ∧ x ∉ (map_to_sensors nearest sensors).map Prod.fst) ∨
      (x ∉ sensors ∧ x ∈ (map_to_sensors nearest sensors).map Prod.fst)) := by
  have hmts := map_to_sensors_eq nearest sensors hnd
  refine ⟨?_, ?_, ?_⟩
  · rw [hmts, List.filter_map]
    rfl
  · intro p hp
    rw [hmts] at hp
    exact alistGet_of_mem_nodup hnd (List.mem_filter.mp hp).1
  · intro x hx
    by_cases hxs : x ∈ sensors
    · left
      refine ⟨hxs, ?_⟩
      rw [hmts]
      intro hmem
      rcases List.mem_map.mp hmem with ⟨p, hp, hpx⟩
      have hdec := (List.mem_filter.mp hp).2
      exact (by simpa [hpx] using hdec : x ∉ sensors) hxs
    · right
      refine ⟨hxs, ?_⟩
      rw [hmts]
      rcases List.mem_map.mp hx with ⟨p, hp, hpx⟩
      exact List.mem_map.mpr ⟨p, List.mem_filter.mpr ⟨hp, by simp [hpx, hxs]⟩, hpx⟩

/-- C6 (witness): on the star graph's nearest map with sensors {B}. -/
theorem C6_coverage_partition_witness :
    ((([("A", "B"), ("B", "A"), ("C", "B"), ("D", "B")] :
      List (String × String)).map Prod.fst).Nodup) ∧
    (map_to_sensors [("A", "B"), ("B", "A"), ("C", "B"), ("D", "B")] {"B"}).map Prod.fst =
      (([("A", "B"), ("B", "A"), ("C", "B"), ("D", "B")] :
        List (String × String)).map Prod.fst).filter (fun x => decide (x ∉ ({"B"} : Finset String))) :=
  ⟨by decide,
    (C6_coverage_partition [("A", "B"), ("B", "A"), ("C", "B"), ("D", "B")] {"B"} (by decide)).1⟩

/-- C7 (confirmed): elevation exclusion: a node whose junction record parses
to an elevation strictly above the threshold is in the skip set, appears in
the loader's graph neither as a key nor inside any adjacency list, and any
pipe record having it as either endpoint leaves the graph unchanged; in
particular the spec's scenario (junction `N1 150.0`, threshold 100, pipe
`P1 N1 N2`) yields the empty graph, containing neither N1 nor N2. -/
theorem C7_elevation_exclusion (lines : List String) (thr : ℚ) (line n ef : String)
    (rest : List String) (e : ℚ)
    (hline : line ∈ junction_records lines)
    (hsp : pySplit line = n :: ef :: rest)
    (hpf : parseFloat ef = some e) (hgt : thr < e) :
    alistGet (create_graph_from_inp lines thr) n = none ∧
    (∀ k adj, alistGet (create_graph_from_inp lines thr) k = some adj → ∀ p ∈ adj, p.1 ≠ n) ∧
    (∀ (g : NetworkGraph) (lp p0 m1 m2 : String) (r : List String),
      pySplit lp = p0 :: m1 :: m2 :: r → (m1 = n ∨ m2 = n) →
      pipeStep (get_skip_nodes_from_elevation lines thr) g lp = g) ∧
    create_graph_from_inp ["[JUNCTIONS]", "N1  150.0", "[PIPES]", "P1  N1  N2"] 100 = [] := by
  have hskip := mem_skip_of_record lines thr line n ef rest e hline hsp hpf hgt
  have hexc := graph_skip_excluded lines thr
  refine ⟨hexc.1 n hskip, ?_, ?_, by decide⟩
  · intro k adj hadj p hp hpn
    have hmem : p ∈ adjOf (create_graph_from_inp lines thr) k := by
      rw [adjOf, hadj]
      exact hp
    exact (hexc.2 k p hmem) (by rw [hpn]; exact hskip)
  · intro g lp p0 m1 m2 r hsp2 hm
    apply pipeStep_skip_noop _ g lp p0 m1 m2 r hsp2
    rcases hm with hm | hm
    · exact Or.inl (by rw [hm]; exact hskip)
    · exact Or.inr (by rw [hm]; exact hskip)

/-- C7 (witness): the scenario input itself discharges the hypotheses:
`N1 150.0` parses to 150 > 100, and N1 is absent from the graph. -/
theorem C7_elevation_exclusion_witness :
    ("N1  150.0" ∈ junction_records ["[JUNCTIONS]", "N1  150.0", "[PIPES]", "P1  N1  N2"]) ∧
    alistGet (create_graph_from_inp ["[JUNCTIONS]", "N1  150.0", "[PIPES]", "P1  N1  N2"] 100)
      "N1" = none :=
  ⟨by decide,
    (C7_elevation_exclusion ["[JUNCTIONS]", "N1  150.0", "[PIPES]", "P1  N1  N2"] 100
      "N1  150.0" "N1" "150.0" [] 150 (by decide) (by decide) (by decide) (by decide)).1⟩

/-- C8 (confirmed): graph symmetry: the pair (b, w) occurs in a's adjacency
list exactly as often as (a, w) occurs in b's (equal multiplicity, hence
the occurrence implication both ways), and every stored edge weight is 1. -/
theorem C8_graph_symmetry (lines : List String) (thr : ℚ) (a b : String) (w : ℚ) :
    (adjOf (create_graph_from_inp lines thr) a).count (b, w) =
      (adjOf (create_graph_from_inp lines thr) b).count (a, w) ∧
    (∀ k adj, alistGet (create_graph_from_inp lines thr) k = some adj → ∀ p ∈ adj, p.2 = 1) := by
  refine ⟨graph_count_symm lines thr a b w, ?_⟩
  intro k adj hadj p hp
  apply graph_weight_one lines thr k p
  rw [adjOf, hadj]
  exact hp

/-- C9 (confirmed): `remove_redundant_sensors` fails with a key-not-found
error exactly when some sensor is not a key of the graph; and under the
pipeline's own construction every sensor is a graph key, so both calls in
the pipeline always return (the error branch is unreachable there). -/
theorem C9_keyerror_semantics (graph : NetworkGraph) (S : Finset String) (lines : List String) :
    (remove_redundant_sensors graph S = none ↔ ∃ s ∈ S, alistGet graph s = none) ∧
    (identify_sensor_nodes lines).isSome = true ∧ (mainPipeline lines).isSome = true := by
  refine ⟨remove_redundant_none_iff graph S, ?_, ?_⟩
  · obtain ⟨S2, hS2, _⟩ := identify_sensor_nodes_some lines
    simp [hS2]
  · obtain ⟨S2, final, _, _, _, hmain⟩ := mainPipeline_run lines
    simp [hmain]

/-- C10 (confirmed): pruning only removes: when every member of S is a key
of the graph, `remove_redundant_sensors` returns a set, and that set is a
subset of S. -/
theorem C10_remove_only_removes (graph : NetworkGraph) (S : Finset String)
    (hkeys : ∀ s ∈ S, (alistGet graph s).isSome = true) :
    ∃ R, remove_redundant_sensors graph S = some R ∧ R ⊆ S := by
  obtain ⟨R, hR⟩ := remove_redundant_isSome_of_keys hkeys
  exact ⟨R, hR, remove_redundant_subset hR⟩

/-- C10 (witness): on the two-node graph A-B with sensors {A, B} the result
is the empty set, a subset of {A, B}. -/
theorem C10_remove_only_removes_witness :
    (∀ s ∈ ({"A", "B"} : Finset String),
      (alistGet [("A", [("B", (1 : ℚ))]), ("B", [("A", (1 : ℚ))])] s).isSome = true) ∧
    (∅ : Finset String) ⊆ {"A", "B"} := by
  constructor
  · decide
  · obtain ⟨R, hR, hsub⟩ := C10_remove_only_removes
      [("A", [("B", (1 : ℚ))]), ("B", [("A", (1 : ℚ))])] {"A", "B"} (by decide)
    have heval : remove_redundant_sensors
        [("A", [("B", (1 : ℚ))]), ("B", [("A", (1 : ℚ))])] {"A", "B"} = some ∅ := by decide
    have hR0 : (∅ : Finset String) = R := Option.some.inj (heval.symm.trans hR)
    rw [hR0]
    exact hsub
